import Mathlib

/-
Verification development for the universal database-migration engine
(migrations/universal.py).  The Python source is shallowly embedded:
strings are `List Char`, Python scalars are the `PyVal` inductive,
fallible operations return `Option`, and the stateful phases (clearing,
importing, sequence reconciliation) are modelled as pure functions from the
run configuration to the sequence of operations they perform.  Each
definition is translated from the corresponding function of the source;
doc comments name the source symbol and line range.
-/

namespace Universal

/-- ASCII lower-casing of one character, modelling Python `str.lower()`
on the ASCII identifiers and type names this program handles. -/
def lowerChar (c : Char) : Char :=
  if 'A' ≤ c ∧ c ≤ 'Z' then Char.ofNat (c.toNat + 32) else c

/-- ASCII upper-casing of one character, modelling Python `str.upper()`. -/
def upperChar (c : Char) : Char :=
  if 'a' ≤ c ∧ c ≤ 'z' then Char.ofNat (c.toNat - 32) else c

/-- `str.lower()` over a whole string. -/
def lowerL (s : List Char) : List Char := s.map lowerChar

/-- `str.upper()` over a whole string. -/
def upperL (s : List Char) : List Char := s.map upperChar

/-- The whitespace characters removed by Python `str.strip()` (ASCII part). -/
def isSpaceChar (c : Char) : Bool :=
  c = ' ' ∨ c = '\t' ∨ c = '\n' ∨ c = '\r' ∨ c = '\x0b' ∨ c = '\x0c'

/-- Python `str.strip()`: drop whitespace from both ends. -/
def pyStrip (s : List Char) : List Char :=
  (s.dropWhile isSpaceChar).rdropWhile isSpaceChar

/-- Python `pat in s` substring test. -/
def isSubL (pat : List Char) : List Char → Bool
  | [] => pat.isEmpty
  | c :: rest => pat.isPrefixOf (c :: rest) || isSubL pat rest

/-- Fuelled worker for `replaceL`; the fuel is the length of the input,
which suffices because a non-empty pattern consumes at least one
character per step (structural recursion keeps the definition
kernel-reducible). -/
def replaceLAux (pat repl : List Char) : Nat → List Char → List Char
  | _, [] => []
  | 0, s => s
  | fuel + 1, c :: rest =>
    if pat ≠ [] ∧ pat.isPrefixOf (c :: rest) then
      repl ++ replaceLAux pat repl fuel ((c :: rest).drop pat.length)
    else
      c :: replaceLAux pat repl fuel rest

/-- Python `str.replace(pat, repl)`: replace each non-overlapping occurrence,
scanning left to right.  (Python raises no error on an empty pattern but
inserts between characters; the source only ever calls this with
non-empty patterns, and for an empty pattern this model leaves the
string unchanged.) -/
def replaceL (pat repl : List Char) (s : List Char) : List Char :=
  replaceLAux pat repl s.length s

/-- Split a list at the first character satisfying `p`; returns the part
before it and, when found, the part after it. -/
def splitFirst (p : Char → Bool) : List Char → List Char × Option (List Char)
  | [] => ([], none)
  | c :: rest =>
    if p c then ([], some rest)
    else
      let r := splitFirst p rest
      (c :: r.1, r.2)

/-- Decimal digit test. -/
def isDigitCh (c : Char) : Bool := '0' ≤ c ∧ c ≤ '9'

/-- Numeric value of a decimal digit. -/
def digitVal (c : Char) : Nat := c.toNat - '0'.toNat

/-- A valid Python digit run: non-empty, digits with optional single
underscores strictly between digits (as accepted by `int()` / `float()`). -/
def validUnd (l : List Char) : Bool :=
  !l.isEmpty &&
  l.all (fun c => isDigitCh c || c = '_') &&
  (match l.head? with | some c => isDigitCh c | none => false) &&
  (match l.getLast? with | some c => isDigitCh c | none => false) &&
  !isSubL ['_', '_'] l

/-- Numeric value of a digit run (underscores ignored). -/
def undRunVal (l : List Char) : Nat :=
  (l.filter isDigitCh).foldl (fun a c => a * 10 + digitVal c) 0

/-- Python `int(str)`: strip whitespace, optional sign, digit run with
optional underscores; raises `ValueError` (here: `none`) otherwise. -/
def pyIntParse (s0 : List Char) : Option Int :=
  let s := pyStrip s0
  match s with
  | '+' :: rest => if validUnd rest then some (undRunVal rest : Int) else none
  | '-' :: rest => if validUnd rest then some (-(undRunVal rest : Int)) else none
  | _ => if validUnd s then some (undRunVal s : Int) else none

/-- The result of a Python `float`: a finite value (modelled by the exact
rational value of the parsed literal), an infinity, or NaN.  The source
never does arithmetic on these values, it only stores and re-emits them,
so the real-valued model is faithful for every claim under test. -/
inductive PyFloat where
  | finite (q : Rat)
  | inf (neg : Bool)
  | nan
deriving DecidableEq, Repr

/-- Number of digits of a digit run (underscores excluded). -/
def undRunLen (l : List Char) : Nat := (l.filter isDigitCh).length

/-- Parse the numeric (non-inf/nan) body of a Python float literal:
`digits [. digits] [(e|E) [sign] digits]`, at least one mantissa digit.
The exact rational value is assembled with integer arithmetic and one
final `mkRat`, so concrete evaluations reduce in the kernel. -/
def pyFloatBody (body : List Char) : Option Rat :=
  let (mant, expPart) := splitFirst (fun c => c = 'e' ∨ c = 'E') body
  let (ip, fpOpt) := splitFirst (fun c => c = '.') mant
  let fp := fpOpt.getD []
  let ipOk := ip.isEmpty || validUnd ip
  let fpOk := fp.isEmpty || validUnd fp
  if !(ipOk && fpOk) then none
  else if ip.isEmpty && fp.isEmpty then none
  else
    let num0 : Nat := undRunVal ip * 10 ^ undRunLen fp + undRunVal fp
    let den0 : Nat := 10 ^ undRunLen fp
    match expPart with
    | none => some (mkRat (num0 : Int) den0)
    | some ex =>
      let (eneg, edig) := match ex with
        | '+' :: r => (false, r)
        | '-' :: r => (true, r)
        | r => (false, r)
      if validUnd edig then
        let e : Nat := undRunVal edig
        if eneg then some (mkRat (num0 : Int) (den0 * 10 ^ e))
        else some (mkRat ((num0 * 10 ^ e : Nat) : Int) den0)
      else none

/-- Python `float(str)`: strip, optional sign, then `inf`/`infinity`/`nan`
(case-insensitive) or a numeric literal. -/
def pyFloatParse (s0 : List Char) : Option PyFloat :=
  let s := pyStrip s0
  let (neg, body) := match s with
    | '+' :: r => (false, r)
    | '-' :: r => (true, r)
    | r => (false, r)
  let lb := lowerL body
  if lb = [ 'i', 'n', 'f'] ∨ lb = [ 'i', 'n', 'f', 'i', 'n', 'i', 't', 'y'] then
    some (.inf neg)
  else if lb = [ 'n', 'a', 'n'] then some .nan
  else
    match pyFloatBody body with
    | some q => some (.finite (if neg then -q else q))
    | none => none

/-- A naive calendar datetime with optional fixed UTC offset (minutes),
modelling the Python `datetime` values the migrator constructs. -/
structure DateTimeV where
  year : Nat
  month : Nat
  day : Nat
  hour : Nat
  minute : Nat
  second : Nat
  micro : Nat
  tzMinutes : Option Int
deriving DecidableEq, Repr

/-- A Python scalar as handled by the migrator: `None`, `bool`, `int`,
`float`, `str` or `datetime`. -/
inductive PyVal where
  | vNone
  | vBool (b : Bool)
  | vInt (n : Int)
  | vFloat (x : PyFloat)
  | vStr (s : List Char)
  | vDatetime (d : DateTimeV)
deriving DecidableEq, Repr

/-- The unescaping chain of `_convert` (universal.py lines 413-419):
sequential `str.replace` of the four escape sequences. -/
def unescape (u : List Char) : List Char :=
  replaceL [ '\\', '\''] [ '\''] (replaceL [ '\\', '"'] [ '"'] u)
  |> replaceL [ '\\', 'n'] [ '\n']
  |> replaceL [ '\\', '\\'] [ '\\']

/-- `_convert` (universal.py lines 403-427): convert one raw SQL dump
field token to a Python scalar. -/
def convert (val0 : List Char) : PyVal :=
  let val := pyStrip val0
  if upperL val = [ 'N', 'U', 'L', 'L'] then .vNone
  else if (val.head? = some '\'' ∧ val.getLast? = some '\'') ∨
          (val.head? = some '"' ∧ val.getLast? = some '"') then
    .vStr (unescape ((val.drop 1).dropLast))
  else if lowerL val = [ 't', 'r', 'u', 'e'] ∨ lowerL val = [ 'f', 'a', 'l', 's', 'e'] then
    .vBool (lowerL val = [ 't', 'r', 'u', 'e'])
  else if val.contains '.' then
    match pyFloatParse val with
    | some x => .vFloat x
    | none => .vStr val
  else
    match pyIntParse val with
    | some n => .vInt n
    | none => .vStr val

/-- `_adjust_row` (universal.py lines 972-978): pad a short row with
`None` on the right, truncate a long row on the right. -/
def adjust_row (rowVals : List PyVal) (cols : List (List Char)) : List PyVal :=
  if rowVals.length < cols.length then
    rowVals ++ List.replicate (cols.length - rowVals.length) .vNone
  else if rowVals.length > cols.length then
    rowVals.take cols.length
  else rowVals

/-- The scanner state of `_find_paren` (universal.py lines 334-360):
parenthesis nesting depth, string-literal state with the opening quote
character, and a pending backslash escape. -/
structure ScanSt where
  depth : Int
  inStr : Bool
  strCh : Option Char
  escape : Bool
deriving DecidableEq, Repr

/-- Initial scanner state (`depth = 0`, not in a string, no escape). -/
def initScan : ScanSt := ⟨0, false, none, false⟩

/-- One character step of `_find_paren`'s loop (universal.py lines
341-357): an escaped character is consumed; a backslash sets the escape
flag (inside or outside strings, as in the source); a quote toggles
string state when it matches the opening quote; parentheses adjust the
depth only outside strings. -/
def scanStep (st : ScanSt) (c : Char) : ScanSt :=
  if st.escape then { st with escape := false }
  else if c = '\\' then { st with escape := true }
  else if c = '"' ∨ c = '\'' then
    if ¬ st.inStr then { st with inStr := true, strCh := some c }
    else if some c = st.strCh then { st with inStr := false }
    else st
  else if c = '(' ∧ ¬ st.inStr then { st with depth := st.depth + 1 }
  else if c = ')' ∧ ¬ st.inStr then { st with depth := st.depth - 1 }
  else st

/-- The loop of `_find_paren` returns the current index exactly when the
character is an unescaped, unquoted `)` that brings the depth from 1 to
0; `closeHitB` is that return condition on the state before the step. -/
def closeHitB (st : ScanSt) (c : Char) : Bool :=
  !st.escape && !st.inStr && (c = ')') && (st.depth = 1)

/-- The scanning loop of `_find_paren`: fold `scanStep` over the
characters, returning the first index whose pre-state and character
satisfy the return condition. -/
def findParenAux (st : ScanSt) (i : Nat) : List Char → Option Nat
  | [] => none
  | c :: rest =>
    if closeHitB st c then some i
    else findParenAux (scanStep st c) (i + 1) rest

/-- `_find_paren` (universal.py lines 334-360): scan from `start`,
returning the absolute index of the matching closing parenthesis, or
`-1` when the scan exhausts the text. -/
def find_paren (text : List Char) (start : Nat) : Int :=
  match findParenAux initScan start (text.drop start) with
  | some j => (j : Int)
  | none => -1

/-- Specification predicate: position `k` of `l` is a closing hit when
the character there is a `)` seen by the scanner (state folded over the
first `k` characters) at depth 1, outside any string and not escaped. -/
def closeHitAtB (st : ScanSt) (l : List Char) (k : Nat) : Bool :=
  match l[k]? with
  | some c => closeHitB ((l.take k).foldl scanStep st) c
  | none => false

lemma closeHitAtB_zero (st : ScanSt) (c : Char) (rest : List Char) :
    closeHitAtB st (c :: rest) 0 = closeHitB st c := by
  simp [closeHitAtB]

lemma closeHitAtB_succ (st : ScanSt) (c : Char) (rest : List Char) (k : Nat) :
    closeHitAtB st (c :: rest) (k + 1) = closeHitAtB (scanStep st c) rest k := by
  simp [closeHitAtB]

lemma findParenAux_some (l : List Char) : ∀ (st : ScanSt) (i j : Nat),
    findParenAux st i l = some j →
    ∃ k, k < l.length ∧ j = i + k ∧ closeHitAtB st l k = true ∧
      ∀ m, m < k → closeHitAtB st l m = false := by
  induction l with
  | nil => intro st i j h; simp [findParenAux] at h
  | cons c rest ih =>
    intro st i j h
    by_cases hc : closeHitB st c = true
    · refine ⟨0, by simp, ?_, ?_, by omega⟩
      · simp [findParenAux, hc] at h; omega
      · simpa [closeHitAtB_zero] using hc
    · simp only [findParenAux] at h
      rw [if_neg hc] at h
      obtain ⟨k, hk, hj, hhit, hmin⟩ := ih (scanStep st c) (i + 1) j h
      refine ⟨k + 1, by simpa using Nat.succ_lt_succ hk, by omega, ?_, ?_⟩
      · simpa [closeHitAtB_succ] using hhit
      · intro m hm
        match m with
        | 0 => simpa [closeHitAtB_zero] using hc
        | m' + 1 =>
          have := hmin m' (by omega)
          simpa [closeHitAtB_succ] using this

lemma findParenAux_none (l : List Char) : ∀ (st : ScanSt) (i : Nat),
    findParenAux st i l = none →
    ∀ m, closeHitAtB st l m = false := by
  induction l with
  | nil => intro st i _ m; simp [closeHitAtB]
  | cons c rest ih =>
    intro st i h m
    by_cases hc : closeHitB st c = true
    · simp [findParenAux, hc] at h
    · simp only [findParenAux] at h
      rw [if_neg hc] at h
      match m with
      | 0 => simpa [closeHitAtB_zero] using hc
      | m' + 1 =>
        have := ih (scanStep st c) (i + 1) h m'
        simpa [closeHitAtB_succ] using this

/-- Truncation toward zero of a rational, modelling Python `int(float)`. -/
def pyTrunc (q : Rat) : Int :=
  let n := q.num.natAbs / q.den
  if q.num < 0 then -(n : Int) else (n : Int)

/-- Python `int(val)` as used by `_convert_type` (universal.py lines
550-561): succeeds on bools, ints, finite floats (truncating) and
parseable strings; `None`/`datetime` raise `TypeError` and unparsable
strings raise `ValueError`, both modelled as `none`.  (CPython raises an
`OverflowError` — not caught by the source — for an infinite float; that
crash path is also modelled as `none` here and is not exercised by any
claim.) -/
def pyIntOf : PyVal → Option Int
  | .vBool b => some (if b then 1 else 0)
  | .vInt n => some n
  | .vFloat (.finite q) => some (pyTrunc q)
  | .vFloat (.inf _) => none
  | .vFloat .nan => none
  | .vStr s => pyIntParse s
  | .vNone => none
  | .vDatetime _ => none

/-- Python `float(val)` as used by `_convert_type` (universal.py lines
564-570). -/
def pyFloatOf : PyVal → Option PyFloat
  | .vBool b => some (.finite (if b then 1 else 0))
  | .vInt n => some (.finite (n : Rat))
  | .vFloat x => some x
  | .vStr s => pyFloatParse s
  | .vNone => none
  | .vDatetime _ => none

/-- Decimal digits of a fraction `n/d` (with `n < d`), up to `fuel`
digits, by repeated multiplication by 10. -/
def fracDigitsAux : Nat → Nat → Nat → List Char
  | 0, _, _ => []
  | fuel + 1, n, d =>
    if n = 0 then []
    else
      let n10 := n * 10
      Char.ofNat ('0'.toNat + n10 / d) :: fracDigitsAux fuel (n10 % d) d

/-- Rendering of a finite Python float by `str()`: sign, integer part,
`.`, fractional digits (at least one).  All float values the migrator
produces have terminating decimal expansions, which this renders
exactly; CPython's shortest-repr and exponent formatting for very
large/small magnitudes are not modelled (no claim exercises them). -/
def ratRepr (q : Rat) : List Char :=
  let sign : List Char := if q.num < 0 then [ '-'] else []
  let ip := q.num.natAbs / q.den
  let fr := q.num.natAbs % q.den
  let ds := fracDigitsAux 30 fr q.den
  sign ++ Nat.toDigits 10 ip ++ [ '.'] ++ (if ds.isEmpty then [ '0'] else ds)

/-- Zero-padded decimal rendering of width 2. -/
def pad2 (n : Nat) : List Char :=
  let d := Nat.toDigits 10 n
  List.replicate (2 - d.length) '0' ++ d

/-- Zero-padded decimal rendering of width 4. -/
def pad4 (n : Nat) : List Char :=
  let d := Nat.toDigits 10 n
  List.replicate (4 - d.length) '0' ++ d

/-- Zero-padded decimal rendering of width 6. -/
def pad6 (n : Nat) : List Char :=
  let d := Nat.toDigits 10 n
  List.replicate (6 - d.length) '0' ++ d

/-- Python `str(datetime)`: `YYYY-MM-DD HH:MM:SS[.ffffff][+HH:MM]`. -/
def dtRepr (d : DateTimeV) : List Char :=
  pad4 d.year ++ [ '-'] ++ pad2 d.month ++ [ '-'] ++ pad2 d.day ++ [ ' '] ++
  pad2 d.hour ++ [ ':'] ++ pad2 d.minute ++ [ ':'] ++ pad2 d.second ++
  (if d.micro = 0 then [] else [ '.'] ++ pad6 d.micro) ++
  (match d.tzMinutes with
   | none => []
   | some off =>
     (if off < 0 then [ '-'] else [ '+']) ++
     pad2 (off.natAbs / 60) ++ [ ':'] ++ pad2 (off.natAbs % 60))

/-- Python `str(val)` over the migrator's scalars. -/
def pyStr : PyVal → List Char
  | .vStr s => s
  | .vBool b => if b then [ 'T', 'r', 'u', 'e'] else [ 'F', 'a', 'l', 's', 'e']
  | .vInt n => if n < 0 then '-' :: Nat.toDigits 10 n.natAbs else Nat.toDigits 10 n.natAbs
  | .vFloat (.finite q) => ratRepr q
  | .vFloat (.inf neg) => if neg then [ '-', 'i', 'n', 'f'] else [ 'i', 'n', 'f']
  | .vFloat .nan => [ 'n', 'a', 'n']
  | .vNone => [ 'N', 'o', 'n', 'e']
  | .vDatetime d => dtRepr d

/-- Leap-year test (proleptic Gregorian, as Python's `datetime`). -/
def isLeap (y : Nat) : Bool := (y % 4 = 0 && y % 100 ≠ 0) || y % 400 = 0

/-- Days in a month, for `datetime`'s calendar validation. -/
def daysInMonth (y m : Nat) : Nat :=
  if m = 2 then (if isLeap y then 29 else 28)
  else if m = 4 ∨ m = 6 ∨ m = 9 ∨ m = 11 then 30
  else 31

/-- Date validity as enforced by Python `datetime`. -/
def validDate (y m d : Nat) : Bool :=
  1 ≤ y && y ≤ 9999 && 1 ≤ m && m ≤ 12 && 1 ≤ d && d ≤ daysInMonth y m

/-- Time-of-day validity as enforced by Python `datetime`. -/
def validTime (h mi s : Nat) : Bool := h ≤ 23 && mi ≤ 59 && s ≤ 59

/-- Take up to `maxN` leading decimal digits. -/
def takeDigits (maxN : Nat) (l : List Char) : List Char × List Char :=
  let ds := (l.takeWhile isDigitCh).take maxN
  (ds, l.drop ds.length)

/-- Numeric value of a plain digit list. -/
def digitsVal (ds : List Char) : Nat := ds.foldl (fun a c => a * 10 + digitVal c) 0

/-- Expect and consume one specific character. -/
def expectCh (c : Char) : List Char → Option (List Char)
  | x :: rest => if x = c then some rest else none
  | [] => none

/-- Python `datetime.strptime(s, "%Y-%m-%d %H:%M:%S")`, with the
trailing `.%f` variant when `withMicro` is set (universal.py lines
576-580): flexible-width numeric fields, full calendar validation. -/
def strptimeYmdHms (withMicro : Bool) (s : List Char) : Option DateTimeV := do
  let (yd, r1) := takeDigits 4 s
  guard (!yd.isEmpty)
  let r2 ← expectCh '-' r1
  let (mo, r3) := takeDigits 2 r2
  guard (!mo.isEmpty)
  let r4 ← expectCh '-' r3
  let (dd, r5) := takeDigits 2 r4
  guard (!dd.isEmpty)
  let r6 ← expectCh ' ' r5
  let (hh, r7) := takeDigits 2 r6
  guard (!hh.isEmpty)
  let r8 ← expectCh ':' r7
  let (mi, r9) := takeDigits 2 r8
  guard (!mi.isEmpty)
  let r10 ← expectCh ':' r9
  let (ss, r11) := takeDigits 2 r10
  guard (!ss.isEmpty)
  let (micro, rest) ← (if withMicro then do
      let rr ← expectCh '.' r11
      let (fd, rr2) := takeDigits 6 rr
      guard (!fd.isEmpty)
      pure (digitsVal fd * 10 ^ (6 - fd.length), rr2)
    else pure (0, r11))
  guard rest.isEmpty
  guard (validDate (digitsVal yd) (digitsVal mo) (digitsVal dd))
  guard (validTime (digitsVal hh) (digitsVal mi) (digitsVal ss))
  pure ⟨digitsVal yd, digitsVal mo, digitsVal dd, digitsVal hh,
        digitsVal mi, digitsVal ss, micro, none⟩

/-- Python `datetime.fromisoformat` as called by `_convert_type`
(universal.py line 584), modelled for the common shapes
`YYYY-MM-DD[<sep>HH[:MM[:SS[.ffffff]]]][±HH:MM]` (the source replaces a
trailing `Z` with `+00:00` before the call).  CPython 3.11 accepts some
further exotic shapes (week dates, `,` fractions) that no claim
exercises. -/
def fromIso (s : List Char) : Option DateTimeV := do
  let (yd, r1) := takeDigits 4 s
  guard (yd.length = 4)
  let r2 ← expectCh '-' r1
  let (mo, r3) := takeDigits 2 r2
  guard (mo.length = 2)
  let r4 ← expectCh '-' r3
  let (dd, r5) := takeDigits 2 r4
  guard (dd.length = 2)
  guard (validDate (digitsVal yd) (digitsVal mo) (digitsVal dd))
  match r5 with
  | [] => pure ⟨digitsVal yd, digitsVal mo, digitsVal dd, 0, 0, 0, 0, none⟩
  | _sep :: r6 => do
    let (hh, r7) := takeDigits 2 r6
    guard (hh.length = 2)
    let (mi, se, micro, r8) ← (match expectCh ':' r7 with
      | none => pure (0, 0, 0, r7)
      | some ra => do
        let (mm, rb) := takeDigits 2 ra
        guard (mm.length = 2)
        match expectCh ':' rb with
        | none => pure (digitsVal mm, 0, 0, rb)
        | some rc => do
          let (sd, rd) := takeDigits 2 rc
          guard (sd.length = 2)
          match expectCh '.' rd with
          | none => pure (digitsVal mm, digitsVal sd, 0, rd)
          | some re' => do
            let (fd, rf) := takeDigits 6 re'
            guard (!fd.isEmpty)
            pure (digitsVal mm, digitsVal sd, digitsVal fd * 10 ^ (6 - fd.length), rf))
    guard (validTime (digitsVal hh) mi se)
    let tz ← (match r8 with
      | [] => pure (none : Option Int)
      | sc :: r9 => do
        guard (sc = '+' ∨ sc = '-')
        let (oh, r10) := takeDigits 2 r9
        guard (oh.length = 2)
        let r11 ← expectCh ':' r10
        let (om, r12) := takeDigits 2 r11
        guard (om.length = 2)
        guard r12.isEmpty
        guard (digitsVal oh ≤ 23 && digitsVal om ≤ 59)
        let mins : Int := (digitsVal oh : Int) * 60 + (digitsVal om : Int)
        pure (some (if sc = '-' then -mins else mins)))
    pure ⟨digitsVal yd, digitsVal mo, digitsVal dd, digitsVal hh, mi, se, micro, tz⟩

/-- `pats.any (isSubL · s)`: Python `any(t in col_type for t in [...])`. -/
def anySub (pats : List (List Char)) (s : List Char) : Bool :=
  pats.any (fun p => isSubL p s)

/-- The timestamp-string branch of `_convert_type` (universal.py lines
574-586): strptime with or without microseconds, then ISO-8601 with `Z`
rewritten, else `None`. -/
def tsParse (s : List Char) : PyVal :=
  match (if s.contains '.' then strptimeYmdHms true s else strptimeYmdHms false s) with
  | some d => .vDatetime d
  | none =>
    match fromIso (replaceL [ 'Z'] [ '+', '0', '0', ':', '0', '0'] s) with
    | some d => .vDatetime d
    | none => .vNone

/-- Text tail of the `_convert_type` chain (universal.py lines 601-604):
the text category stringifies, anything unmatched passes through. -/
def convertTypeText (val : PyVal) (ct : List Char) : PyVal :=
  if anySub [ "text".data, "varchar".data, "char".data, "character".data] ct then
    .vStr (pyStr val)
  else val

/-- JSON step of the `_convert_type` chain (universal.py lines 589-598):
`json.loads` is used only to validate, and both outcomes return the
value unchanged, so the branch is the identity on strings; non-string
values fall through to the text tail.  (`dict`/`list` values do not
occur in this scalar model.) -/
def convertTypeJson (val : PyVal) (ct : List Char) : PyVal :=
  if isSubL "json".data ct || isSubL "jsonb".data ct then
    match val with
    | .vStr s => .vStr s
    | _ => convertTypeText val ct
  else convertTypeText val ct

/-- `_convert_type` (universal.py lines 534-604): coerce a value to the
target column's type, classified from the lowercase catalog type name.
The boolean category is an exact membership test; the numeric and later
categories are substring tests. -/
def convert_type (val : PyVal) (colType0 : List Char) : PyVal :=
  if val = .vNone then .vNone
  else
    let ct := lowerL colType0
    if ct = "bool".data ∨ ct = "boolean".data ∨ ct = "tinyint(1)".data then
      match val with
      | .vBool b => .vBool b
      | .vInt n => .vBool (n ≠ 0)
      | _ => .vBool ([ "true".data, "1".data, "t".data, "yes".data].contains (lowerL (pyStr val)))
    else if isSubL "bigint".data ct || isSubL "int8".data ct then
      match pyIntOf val with
      | some n => .vInt n
      | none => .vInt 0
    else if anySub [ "int".data, "integer".data, "smallint".data] ct then
      match pyIntOf val with
      | some n => .vInt n
      | none => .vNone
    else if anySub [ "float".data, "real".data, "double".data, "numeric".data, "decimal".data] ct then
      match pyFloatOf val with
      | some x => .vFloat x
      | none => .vNone
    else if anySub [ "timestamp".data, "datetime".data, "timestamptz".data] ct then
      match val with
      | .vStr s => tsParse s
      | _ => convertTypeJson val ct
    else convertTypeJson val ct

/-- Target-side column metadata (`_get_table_columns` rows): catalog
type name, nullability, raw catalog default (`dflt` models the source's
`default` key) and maximum character length. -/
structure ColInfo where
  type : List Char
  nullable : Bool
  dflt : Option PyVal
  maxLength : Option Nat
deriving DecidableEq, Repr

/-- Python `str.strip("'")`: drop single quotes from both ends. -/
def stripQuotesL (s : List Char) : List Char :=
  (s.dropWhile (fun c => c = '\'')).rdropWhile (fun c => c = '\'')

/-- Characters before the first occurrence of `pat` (Python
`s.split(pat)[0]`). -/
def takeBeforeSub (pat : List Char) : List Char → List Char
  | [] => []
  | c :: rest => if pat.isPrefixOf (c :: rest) then [] else c :: takeBeforeSub pat rest

/-- Python `str.isdigit` (ASCII): non-empty and all digits. -/
def pyIsDigitStr (s : List Char) : Bool := !s.isEmpty && s.all isDigitCh

/-- The declared-catalog-default parsing of `_get_default_value`
(universal.py lines 491-506) for a string-valued default: strip a
`'value'::type` cast, unquote, or recognize integers and booleans. -/
def dbDefaultParse (ds : List Char) : PyVal :=
  if isSubL [ ':', ':'] ds then
    let vp := pyStrip (takeBeforeSub [ ':', ':'] ds)
    if vp.head? = some '\'' ∧ vp.getLast? = some '\'' then .vStr (stripQuotesL vp)
    else .vStr vp
  else if ds.head? = some '\'' ∧ ds.getLast? = some '\'' then .vStr (stripQuotesL ds)
  else if pyIsDigitStr ds then .vInt (undRunVal ds : Int)
  else if ds = "true".data ∨ ds = "false".data then .vBool (ds = "true".data)
  else .vStr ds

/-- The type-category default synthesis of `_get_default_value`
(universal.py lines 508-532), reached when the catalog declares no
usable default; `now` models `datetime.now()` by explicit state
passing.  The boolean and numeric categories here are substring tests
(unlike `_convert_type`'s exact boolean test). -/
def typeDefault (enumDefaults : List (List Char × List Char)) (now : DateTimeV)
    (colType column : List Char) : PyVal :=
  if isSubL "bool".data colType || isSubL "tinyint(1)".data colType then .vBool false
  else if anySub [ "int".data, "bigint".data, "smallint".data] colType then .vInt 0
  else if anySub [ "float".data, "real".data, "double".data, "numeric".data, "decimal".data] colType then
    .vFloat (.finite 0)
  else if anySub [ "timestamp".data, "datetime".data, "timestamptz".data] colType then
    .vDatetime now
  else if anySub [ "text".data, "varchar".data, "char".data, "character".data] colType then
    match enumDefaults.lookup column with
    | some v => .vStr v
    | none => .vStr []
  else .vStr []

/-- `_get_default_value` (universal.py lines 484-532).  The source also
receives the table name but never uses it. -/
def get_default_value (enumDefaults : List (List Char × List Char)) (now : DateTimeV)
    (colInfo : ColInfo) (_table column : List Char) : PyVal :=
  let colType := lowerL colInfo.type
  match colInfo.dflt with
  | some d =>
    if d = .vStr [] then typeDefault enumDefaults now colType column
    else
      match d with
      | .vStr ds => dbDefaultParse ds
      | _ => d
  | none => typeDefault enumDefaults now colType column

/-- `_truncate_if_needed` (universal.py lines 606-621), modelled on the
returned value (the source also records a per-`table.column` warning
used only for reporting). -/
def truncate_if_needed (truncateStrings : Bool) (val : PyVal) (maxLength : Option Nat) : PyVal :=
  match val, maxLength with
  | .vStr s, some ml =>
    if s.length > ml then (if truncateStrings then .vStr (s.take ml) else .vStr s)
    else .vStr s
  | v, _ => v

/-- One cell of the row-conversion loop of `import_data` (universal.py
lines 760-779): preserve `None` for nullable columns, coerce, synthesize
a default when a non-nullable column coerced to `None`, then apply the
truncation policy when the column has a (truthy) maximum length. -/
def convertCell (enumDefaults : List (List Char × List Char)) (now : DateTimeV)
    (truncateStrings : Bool) (colInfo : ColInfo) (table column : List Char)
    (v : PyVal) : PyVal :=
  if v = .vNone ∧ colInfo.nullable then .vNone
  else
    let cv := convert_type v colInfo.type
    let cv2 := if cv = .vNone ∧ ¬ colInfo.nullable then
        get_default_value enumDefaults now colInfo table column
      else cv
    match colInfo.maxLength with
    | some ml => if ml ≠ 0 then truncate_if_needed truncateStrings cv2 (some ml) else cv2
    | none => cv2

/-- The built-in enum/string column defaults
(`_get_default_enum_defaults`, universal.py lines 105-110). -/
def default_enum_defaults : List (List Char × List Char) :=
  [("fingerprint".data, "none".data), ("security".data, "inbound_default".data)]

/-- The `enum_defaults` constructor logic (universal.py lines 63-68):
`None` installs the built-in defaults, any explicit mapping — including
an empty one — is respected as-is. -/
def effectiveEnumDefaults (arg : Option (List (List Char × List Char))) :
    List (List Char × List Char) :=
  match arg with
  | none => default_enum_defaults
  | some m => m

/-- The built-in table import order (`_get_default_table_order`,
universal.py lines 72-103). -/
def default_table_order : List (List Char) :=
  [ "jwt".data, "system".data, "settings".data,
    "admins".data, "core_configs".data, "nodes".data, "inbounds".data, "groups".data,
    "inbounds_groups_association".data,
    "hosts".data, "user_templates".data, "template_group_association".data,
    "users".data, "users_groups_association".data, "next_plans".data,
    "admin_usage_logs".data, "user_usage_logs".data, "notification_reminders".data,
    "user_subscription_updates".data, "node_user_usages".data, "node_usages".data,
    "node_stats".data]

/-- The `table_order` constructor logic (universal.py line 62):
`table_order or self._get_default_table_order()` — Python truthiness, so
both `None` and an empty list fall back to the built-in order. -/
def effectiveTableOrder (arg : Option (List (List Char))) : List (List Char) :=
  match arg with
  | some l => if l.isEmpty then default_table_order else l
  | none => default_table_order

/-- One table of the in-memory Table Set (`self.tables` entries):
optional explicit column list and the ordered rows. -/
structure TableData where
  columns : Option (List (List Char))
  rows : List (List PyVal)
deriving DecidableEq, Repr

/-- The clear-phase table sequence (universal.py line 642):
`list(reversed(self.table_order))` — the configured order reversed, with
no exclusion filtering. -/
def clearOrder (tableOrder : List (List Char)) : List (List Char) :=
  tableOrder.reverse

/-- The migration-framework bookkeeping tables skipped by `import_data`
(universal.py lines 707-712). -/
def frameworkTables : List (List Char) :=
  [ "alembic_version".data, "django_migrations".data,
    "flyway_schema_history".data, "schema_migrations".data]

/-- The per-table gate of `import_data` (universal.py lines 702-730): a
table is imported when it is present in the Table Set, is not a
framework table, is not excluded, has rows, and its target-catalog
column query returns a non-empty mapping. -/
def shouldImport (tables : List Char → Option TableData) (excl : List (List Char))
    (targetCols : List Char → List (List Char × ColInfo)) (t : List Char) : Bool :=
  match tables t with
  | none => false
  | some td =>
    !(frameworkTables.contains t) &&
    !(excl.contains t) &&
    !td.rows.isEmpty &&
    !(targetCols t).isEmpty

/-- The sequence of tables actually imported, in configured order
(universal.py line 702: `for table in self.table_order`). -/
def importOrder (order : List (List Char)) (tables : List Char → Option TableData)
    (excl : List (List Char)) (targetCols : List Char → List (List Char × ColInfo)) :
    List (List Char) :=
  order.filter (shouldImport tables excl targetCols)

/-- The row-level import trace: for each imported table in order, its
rows in order (universal.py line 751 / 862: `for row_vals in rows`),
tagged with the table name. -/
def importTrace (order : List (List Char)) (tables : List Char → Option TableData)
    (excl : List (List Char)) (targetCols : List Char → List (List Char × ColInfo)) :
    List ((List Char) × List PyVal) :=
  (importOrder order tables excl targetCols).flatMap
    (fun t => (match tables t with | some td => td.rows | none => []).map (fun r => (t, r)))

/-- Fuelled worker for `toBatches`; one unit of fuel per emitted batch,
and `fuel = l.length` suffices for any batch size ≥ 1 (a batch consumes
at least one element). -/
def toBatchesAux (n : Nat) : Nat → List (List PyVal) → List (List (List PyVal))
  | _, [] => []
  | 0, c :: rest => [c :: rest]
  | fuel + 1, c :: rest => (c :: rest).take n :: toBatchesAux n fuel ((c :: rest).drop n)

/-- The batching of `import_data` (universal.py lines 749-954): rows are
accumulated and flushed at `batch_size`, then the remainder is flushed;
the batches are the consecutive chunks of size `n` with a final shorter
chunk. -/
def toBatches (n : Nat) (l : List (List PyVal)) : List (List (List PyVal)) :=
  toBatchesAux n l.length l

/-- The source's batch size (universal.py lines 738 and 858). -/
def srcBatchSize : Nat := 5000

/-- One batch attempt of `import_data` (universal.py lines 785-819 /
894-925): the batch runs in one transaction, so if every row is accepted
the whole batch counts as ok; otherwise the transaction is rolled back
and each row is retried in its own transaction, counting accepted and
rejected rows separately.  `rowOk` abstracts whether the target database
accepts a row (deterministic across the batch attempt and the retry). -/
def processBatch (rowOk : List PyVal → Bool) (batch : List (List PyVal)) : Nat × Nat :=
  if batch.all rowOk then (batch.length, 0)
  else (batch.countP rowOk, batch.countP (fun r => !(rowOk r)))

/-- The per-table `ok`/`fail` counters of `import_data` accumulated over
all batches (universal.py lines 734-735, 792-815, 828-847). -/
def importCounts (rowOk : List PyVal → Bool) (batchSize : Nat)
    (rows : List (List PyVal)) : Nat × Nat :=
  (toBatches batchSize rows).foldl
    (fun acc b =>
      (acc.1 + (processBatch rowOk b).1, acc.2 + (processBatch rowOk b).2))
    (0, 0)

/-- The `stats` dictionary of `import_data` (universal.py lines 700,
961): per imported table, its final ok/fail counts. -/
def runStats (order : List (List Char)) (tables : List Char → Option TableData)
    (excl : List (List Char)) (targetCols : List Char → List (List Char × ColInfo))
    (rowOk : List Char → List PyVal → Bool) (batchSize : Nat) :
    List ((List Char) × (Nat × Nat)) :=
  (importOrder order tables excl targetCols).map
    (fun t => (t, importCounts (rowOk t) batchSize
      (match tables t with | some td => td.rows | none => [])))

/-- `get_max_id` (universal.py lines 1035-1048): the scalar of
`SELECT MAX(id_column)`, with SQL `NULL` (empty table) mapped to 0. -/
def get_max_id (maxScalar : Option Int) : Int := maxScalar.getD 0

/-- A counter-advancing statement issued by `restart_sequences`: a
PostgreSQL `setval(sequence, v)` or a MySQL
`ALTER TABLE t AUTO_INCREMENT = v`. -/
inductive SeqAction where
  | setval (seq : List Char) (v : Int)
  | setAutoInc (table : List Char) (v : Int)
deriving DecidableEq, Repr

/-- The body of the candidate loop of `restart_sequences` (universal.py
lines 1062-1117) for one `(table, id_column)` candidate: skip tables
absent from the Table Set or without imported rows; skip when the
maximum existing value is non-positive; otherwise advance the counter to
`max + 1` — resolving the bound sequence (`pg_get_serial_sequence`,
skipped when it yields no name) for PostgreSQL, or altering
`AUTO_INCREMENT` for MySQL.  `maxScalar` and `seqName` abstract the two
catalog queries. -/
def candidateActions (targetType : List Char)
    (tables : List Char → Option TableData)
    (maxScalar : List Char → List Char → Option Int)
    (seqName : List Char → List Char → Option (List Char))
    (p : (List Char) × List Char) : List SeqAction :=
  match tables p.1 with
  | none => []
  | some td =>
    if td.rows.isEmpty then []
    else
      let maxId := get_max_id (maxScalar p.1 p.2)
      if maxId ≤ 0 then []
      else
        let nextId := maxId + 1
        if targetType = "postgres".data then
          match seqName p.1 p.2 with
          | some s => if s.isEmpty then [] else [.setval s nextId]
          | none => []
        else if targetType = "mysql".data then [.setAutoInc p.1 nextId]
        else []

/-- `restart_sequences` (universal.py lines 1050-1119): the sequence of
counter-advancing statements issued over all auto-increment candidates
(`detect_auto_increment_tables` is abstracted as the `autoInc`
candidate list, a dictionary in the source — hence distinct keys). -/
def restart_sequences (targetType : List Char)
    (autoInc : List ((List Char) × List Char))
    (tables : List Char → Option TableData)
    (maxScalar : List Char → List Char → Option Int)
    (seqName : List Char → List Char → Option (List Char)) : List SeqAction :=
  autoInc.flatMap (candidateActions targetType tables maxScalar seqName)

/-- The table names recorded by `parse_sql` (universal.py lines 232-275)
at the level of the regex match streams: the names of matched
CREATE TABLE statements and matched INSERT statements, each loop
guarded by `if table in self.exclude_tables: continue` (lines 236 and
263). -/
def dumpReadNames (createNames insertNames : List (List Char))
    (excl : List (List Char)) : List (List Char) :=
  createNames.filter (fun t => !(excl.contains t)) ++
  insertNames.filter (fun t => !(excl.contains t))

/-- The table names recorded by `read_from_database` (universal.py
lines 184-207): the catalog's visible tables, minus the excluded ones
(line 194), keeping only tables whose full read returned rows
(line 202). -/
def liveReadNames (tableNames : List (List Char)) (excl : List (List Char))
    (hasRows : List Char → Bool) : List (List Char) :=
  (tableNames.filter (fun t => !(excl.contains t))).filter hasRows

lemma getElem?_lt_length {α : Type} {l : List α} {n : Nat} {a : α}
    (h : l[n]? = some a) : n < l.length :=
  (List.getElem?_eq_some.mp h).1

lemma getElem?_of_mem' {α : Type} {l : List α} {a : α} (h : a ∈ l) :
    ∃ n : Nat, l[n]? = some a := by
  obtain ⟨n, hn, he⟩ := List.getElem_of_mem h
  exact ⟨n, by simp [List.getElem?_eq_getElem, hn, he]⟩

/-- In a duplicate-free list, if `A` sits strictly before `B`, then in
the reversed list every occurrence of `B` sits strictly before every
occurrence of `A`. -/
lemma reverse_pos_lt {α : Type} {l : List α} (hnd : l.Nodup) {i j p q : Nat} {A B : α}
    (hi : l[i]? = some A) (hj : l[j]? = some B) (hij : i < j)
    (hp : l.reverse[p]? = some B) (hq : l.reverse[q]? = some A) : p < q := by
  have hjl : j < l.length := getElem?_lt_length hj
  have hpl : p < l.length := by simpa using getElem?_lt_length hp
  have hql : q < l.length := by simpa using getElem?_lt_length hq
  rw [List.getElem?_reverse hpl] at hp
  rw [List.getElem?_reverse hql] at hq
  have h1 : l.length - 1 - p = j := List.getElem?_inj (by omega) hnd (hp.trans hj.symm)
  have h2 : l.length - 1 - q = i := List.getElem?_inj (by omega) hnd (hq.trans hi.symm)
  omega

/-- Filtering a duplicate-free list preserves the relative order of two
surviving elements. -/
lemma filter_rel_order {α : Type} (p : α → Bool) :
    ∀ (l : List α) {i j : Nat} {A B : α}, l.Nodup →
      l[i]? = some A → l[j]? = some B → i < j →
      A ∈ l.filter p → B ∈ l.filter p →
      ∃ u v : Nat, u < v ∧ (l.filter p)[u]? = some A ∧ (l.filter p)[v]? = some B := by
  intro l
  induction l with
  | nil => intro i j A B _ hi; simp at hi
  | cons c rest ih =>
    intro i j A B hnd hi hj hij hA hB
    obtain ⟨hcr, hndr⟩ := List.nodup_cons.mp hnd
    match i, j with
    | 0, 0 => omega
    | 0, j' + 1 =>
      have hAc : A = c := by have h := hi; simp at h; exact h.symm
      subst hAc
      have hBr : B ∈ rest := List.getElem?_mem (by simpa using hj)
      have hpc : p A = true := (List.mem_filter.mp hA).2
      have hBne : B ≠ A := fun h => hcr (h ▸ hBr)
      have hBfr : B ∈ rest.filter p := by
        have := hB
        rw [List.filter_cons, if_pos hpc] at this
        rcases List.mem_cons.mp this with h | h
        · exact absurd h hBne
        · exact h
      obtain ⟨v', hv'⟩ := getElem?_of_mem' hBfr
      refine ⟨0, v' + 1, by omega, ?_, ?_⟩
      · simp [List.filter_cons, hpc]
      · simp [List.filter_cons, hpc, hv']
    | i' + 1, j' + 1 =>
      have hi' : rest[i']? = some A := by simpa using hi
      have hj' : rest[j']? = some B := by simpa using hj
      have hAr : A ∈ rest := List.getElem?_mem hi'
      have hBr : B ∈ rest := List.getElem?_mem hj'
      have hAfr : A ∈ rest.filter p :=
        List.mem_filter.mpr ⟨hAr, (List.mem_filter.mp hA).2⟩
      have hBfr : B ∈ rest.filter p :=
        List.mem_filter.mpr ⟨hBr, (List.mem_filter.mp hB).2⟩
      obtain ⟨u, v, huv, hu, hv⟩ := ih hndr hi' hj' (by omega) hAfr hBfr
      by_cases hpc : p c = true
      · exact ⟨u + 1, v + 1, by omega,
          by simp [List.filter_cons, hpc, hu], by simp [List.filter_cons, hpc, hv]⟩
      · refine ⟨u, v, huv, ?_, ?_⟩
        · rw [List.filter_cons, if_neg hpc]; exact hu
        · rw [List.filter_cons, if_neg hpc]; exact hv

/-- An element of the tagged flatten carries a tag from the list. -/
lemma flatMap_fst_mem {α β : Type} {l : List α} {f : α → List β} {e : α × β}
    (he : e ∈ l.flatMap (fun t => (f t).map (fun r => (t, r)))) : e.1 ∈ l := by
  obtain ⟨t, ht, hm⟩ := List.mem_flatMap.mp he
  obtain ⟨r, _, hrr⟩ := List.mem_map.mp hm
  rw [← hrr]
  exact ht

/-- In the tagged flatten of a duplicate-free list, every element tagged
with an earlier list entry precedes every element tagged with a later
one. -/
lemma flatMap_block_order {α β : Type} {f : α → List β} :
    ∀ (l : List α), l.Nodup →
      ∀ {u v : Nat} {A B : α}, l[u]? = some A → l[v]? = some B → u < v →
      ∀ {p q : Nat} {eA eB : α × β},
        (l.flatMap (fun t => (f t).map (fun r => (t, r))))[p]? = some eA → eA.1 = A →
        (l.flatMap (fun t => (f t).map (fun r => (t, r))))[q]? = some eB → eB.1 = B →
        p < q := by
  intro l
  induction l with
  | nil => intro _ u v A B hu; simp at hu
  | cons c rest ih =>
    intro hnd u v A B hu hv huv p q eA eB hp hA hq hB
    obtain ⟨hcr, hndr⟩ := List.nodup_cons.mp hnd
    have htrace : (c :: rest).flatMap (fun t => (f t).map fun r => (t, r)) =
        (f c).map (fun r => (c, r)) ++ rest.flatMap (fun t => (f t).map fun r => (t, r)) := by
      simp
    match u, v with
    | 0, 0 => omega
    | 0, v' + 1 =>
      have hAc : A = c := by have h := hu; simp at h; exact h.symm
      have hBr : B ∈ rest := List.getElem?_mem (by simpa using hv)
      have hBc : B ≠ c := fun h => hcr (h ▸ hBr)
      have hq_ge : ((f c).map (fun r => (c, r))).length ≤ q := by
        by_contra hlt
        push_neg at hlt
        rw [htrace, List.getElem?_append_left hlt] at hq
        obtain ⟨r, _, hrr⟩ := List.mem_map.mp (List.getElem?_mem hq)
        exact hBc (by rw [← hB, ← hrr])
      have hp_lt : p < ((f c).map (fun r => (c, r))).length := by
        by_contra hge
        push_neg at hge
        rw [htrace, List.getElem?_append_right hge] at hp
        have hmem : eA.1 ∈ rest := flatMap_fst_mem (List.getElem?_mem hp)
        rw [hA, hAc] at hmem
        exact hcr hmem
      omega
    | u' + 1, v' + 1 =>
      have hu' : rest[u']? = some A := by simpa using hu
      have hv' : rest[v']? = some B := by simpa using hv
      have hAr : A ∈ rest := List.getElem?_mem hu'
      have hBr : B ∈ rest := List.getElem?_mem hv'
      have hAc : A ≠ c := fun h => hcr (h ▸ hAr)
      have hBc : B ≠ c := fun h => hcr (h ▸ hBr)
      have hp_ge : ((f c).map (fun r => (c, r))).length ≤ p := by
        by_contra hlt
        push_neg at hlt
        rw [htrace, List.getElem?_append_left hlt] at hp
        obtain ⟨r, _, hrr⟩ := List.mem_map.mp (List.getElem?_mem hp)
        exact hAc (by rw [← hA, ← hrr])
      have hq_ge : ((f c).map (fun r => (c, r))).length ≤ q := by
        by_contra hlt
        push_neg at hlt
        rw [htrace, List.getElem?_append_left hlt] at hq
        obtain ⟨r, _, hrr⟩ := List.mem_map.mp (List.getElem?_mem hq)
        exact hBc (by rw [← hB, ← hrr])
      rw [htrace, List.getElem?_append_right hp_ge] at hp
      rw [htrace, List.getElem?_append_right hq_ge] at hq
      have := ih hndr hu' hv' (by omega) hp hA hq hB
      omega

/-- Looking up a key in an association list built by tagging each list
element with a function of itself. -/
lemma lookup_map_key {β : Type} (g : List Char → β) :
    ∀ (l : List (List Char)) (a : List Char),
      (l.map (fun u => (u, g u))).lookup a = if a ∈ l then some (g a) else none := by
  intro l a
  induction l with
  | nil => simp [List.lookup]
  | cons c rest ih =>
    by_cases h : a = c
    · subst h
      simp [List.lookup]
    · have hbc : (a == c) = false := beq_eq_false_iff_ne.mpr h
      simp [List.lookup, hbc, h, ih]

/-- C3 counterexample: `_convert` only unescapes backslash escape
sequences, so the SQL-style doubled-quote literal `'it''s'` yields the
string `it''s`, not `it's`; and no integer-then-float parse cascade
exists — a dot decides which single parse is attempted, so `1e5` stays
the string `1e5` instead of becoming the float 100000.0. -/
theorem c3_counterexample :
    convert ("'it''s'".data) = .vStr ("it''s".data) ∧
    (PyVal.vStr ("it''s".data)) ≠ .vStr ("it's".data) ∧
    convert ("1e5".data) = .vStr ("1e5".data) ∧
    (PyVal.vStr ("1e5".data)) ≠ .vFloat (.finite (mkRat 100000 1)) := by
  refine ⟨by decide, by decide, by decide, by decide⟩

/-- C3 (amended): conversion of a raw dump field token is deterministic
and follows: `NULL` (case-insensitive) yields null; a token wrapped in a
matching quote pair yields the string unescaped through the four
backslash replacements (doubled quotes are not collapsed, so `'it''s'`
yields `it''s`); case-insensitive `true`/`false` yields a boolean;
otherwise a float parse is attempted when the token contains a dot and
an integer parse otherwise (so `1e5` stays the string `1e5`); any
remaining token passes through as a string.  `NULL` yields null, `123`
yields integer 123, `1.5` yields float 1.5, `TRUE` yields boolean
true. -/
theorem c3_value_conversion :
    convert ("NULL".data) = .vNone ∧
    convert ("null".data) = .vNone ∧
    convert ("123".data) = .vInt 123 ∧
    convert ("1.5".data) = .vFloat (.finite (mkRat 3 2)) ∧
    (mkRat 3 2 : Rat) = 1.5 ∧
    convert ("TRUE".data) = .vBool true ∧
    convert ("false".data) = .vBool false ∧
    convert ("'it''s'".data) = .vStr ("it''s".data) ∧
    convert ("'a\\'b'".data) = .vStr ("a'b".data) ∧
    convert ("\"x\\\"y\\n\\\\\"".data) = .vStr ("x\"y\n\\".data) ∧
    convert ("1e5".data) = .vStr ("1e5".data) ∧
    convert ("12x".data) = .vStr ("12x".data) ∧
    convert ("1.5.6".data) = .vStr ("1.5.6".data) := by
  refine ⟨by decide, by decide, by decide, by decide, by norm_num, by decide, by decide,
    by decide, by decide, by decide, by decide, by decide, by decide⟩

/-- C9: row-length adjustment always returns a row of exactly the
column count — padding a short row with nulls on the right, truncating a
long row from the right, and returning a matching row unchanged. -/
theorem c9_adjust_row (row : List PyVal) (cols : List (List Char)) :
    (adjust_row row cols).length = cols.length ∧
    (row.length < cols.length →
      adjust_row row cols = row ++ List.replicate (cols.length - row.length) .vNone) ∧
    (row.length > cols.length → adjust_row row cols = row.take cols.length) ∧
    (row.length = cols.length → adjust_row row cols = row) := by
  unfold adjust_row
  by_cases h1 : row.length < cols.length
  · refine ⟨?_, fun _ => by simp [h1], fun h2 => absurd h2 (by omega),
      fun h3 => absurd h3 (by omega)⟩
    simp [h1]
    omega
  · by_cases h2 : row.length > cols.length
    · refine ⟨?_, fun h => absurd h (by omega), fun _ => by simp [h1, h2],
        fun h3 => absurd h3 (by omega)⟩
      simp [h1, h2]
      omega
    · have h3 : row.length = cols.length := by omega
      refine ⟨by simp [h1, h2, h3], fun h => absurd h (by omega),
        fun h => absurd h (by omega), fun _ => by simp [h1, h2]⟩

/-- C9 witness: concrete instances of the three cases. -/
theorem c9_adjust_row_witness :
    adjust_row [ .vInt 1] [ "a".data, "b".data, "c".data] = [ .vInt 1, .vNone, .vNone] ∧
    adjust_row [ .vInt 1, .vInt 2] [ "a".data] = [ .vInt 1] ∧
    adjust_row [ .vInt 7] [ "a".data] = [ .vInt 7] := by
  have h1 := (c9_adjust_row [ .vInt 1] [ "a".data, "b".data, "c".data]).2.1 (by decide)
  have h2 := (c9_adjust_row [ .vInt 1, .vInt 2] [ "a".data]).2.2.1 (by decide)
  have h3 := (c9_adjust_row [ .vInt 7] [ "a".data]).2.2.2 (by decide)
  exact ⟨h1.trans (by decide), h2.trans (by decide), h3⟩

/-- C8: for every text and start position, `_find_paren` returns the
first position at which the quote/escape-aware scanner sees a `)` at
nesting depth 1 outside any string — the matching outer closing
parenthesis (so nested parentheses and parenthesis characters inside
quoted strings never close early) — and returns -1 exactly when no such
position exists. -/
theorem c8_find_paren (text : List Char) (start : Nat) :
    (∀ j : Nat, find_paren text start = (j : Int) →
        start ≤ j ∧
        text[j]? = some ')' ∧
        closeHitAtB initScan (text.drop start) (j - start) = true ∧
        ∀ m, m < j - start → closeHitAtB initScan (text.drop start) m = false) ∧
    (find_paren text start = -1 →
        ∀ m, closeHitAtB initScan (text.drop start) m = false) := by
  constructor
  · intro j hj
    unfold find_paren at hj
    cases h : findParenAux initScan start (text.drop start) with
    | none =>
      rw [h] at hj
      exact absurd (show (-1 : Int) = (j : Int) from hj) (by omega)
    | some j0 =>
      rw [h] at hj
      have hj2 : (j0 : Int) = (j : Int) := hj
      have hj0 : j0 = j := by exact_mod_cast hj2
      subst hj0
      obtain ⟨k, hk, hjk, hhit, hmin⟩ := findParenAux_some _ _ _ _ h
      subst hjk
      have hks : start + k - start = k := by omega
      refine ⟨by omega, ?_, by rw [hks]; exact hhit, by rw [hks]; exact hmin⟩
      have hdrop : (text.drop start)[k]? = text[start + k]? := by
        rw [List.getElem?_drop]
      unfold closeHitAtB at hhit
      cases hc : (text.drop start)[k]? with
      | none => rw [hc] at hhit; simp at hhit
      | some c =>
        rw [hc] at hhit
        have hcp : c = ')' := by
          unfold closeHitB at hhit
          simp only [Bool.and_eq_true, decide_eq_true_eq] at hhit
          exact hhit.1.2
        rw [← hdrop, hc, hcp]
  · intro hneg m
    unfold find_paren at hneg
    cases h : findParenAux initScan start (text.drop start) with
    | some j0 =>
      rw [h] at hneg
      exact absurd (show ((j0 : Nat) : Int) = -1 from hneg) (by omega)
    | none => exact findParenAux_none _ _ _ h m

/-- C8 witness: on `x(DECIMAL(10,2),"a)b")y`, scanning from the opening
parenthesis at index 1, the match is the final `)` at index 21 — the
nested `(10,2)` and the quoted `)` do not close early. -/
theorem c8_find_paren_witness :
    (1 : Nat) ≤ 21 ∧
    ("x(DECIMAL(10,2),\"a)b\")y".data)[21]? = some ')' ∧
    closeHitAtB initScan (("x(DECIMAL(10,2),\"a)b\")y".data).drop 1) (21 - 1) = true ∧
    ∀ m, m < 21 - 1 →
      closeHitAtB initScan (("x(DECIMAL(10,2),\"a)b\")y".data).drop 1) m = false := by
  exact (c8_find_paren ("x(DECIMAL(10,2),\"a)b\")y".data) 1).1 21 (by decide)

/-- C10: omitting `enum_defaults` (Python `None`) installs the built-in
mapping `{fingerprint: none, security: inbound_default}`, while passing
an explicitly empty mapping installs no enum defaults; consequently a
non-nullable text column named `fingerprint` or `security` whose value
coerces to null and has no catalog default receives the named sentinel
under the omitted configuration but the empty string under the
explicitly empty configuration. -/
theorem c10_enum_defaults :
    effectiveEnumDefaults none = default_enum_defaults ∧
    default_enum_defaults =
      [("fingerprint".data, "none".data), ("security".data, "inbound_default".data)] ∧
    effectiveEnumDefaults (some []) = [] ∧
    convertCell (effectiveEnumDefaults none) ⟨2024, 1, 1, 0, 0, 0, 0, none⟩ false
      ⟨"varchar(32)".data, false, none, none⟩ ("hosts".data) ("fingerprint".data) .vNone
      = .vStr ("none".data) ∧
    convertCell (effectiveEnumDefaults none) ⟨2024, 1, 1, 0, 0, 0, 0, none⟩ false
      ⟨"varchar(32)".data, false, none, none⟩ ("hosts".data) ("security".data) .vNone
      = .vStr ("inbound_default".data) ∧
    convertCell (effectiveEnumDefaults (some [])) ⟨2024, 1, 1, 0, 0, 0, 0, none⟩ false
      ⟨"varchar(32)".data, false, none, none⟩ ("hosts".data) ("fingerprint".data) .vNone
      = .vStr [] ∧
    convertCell (effectiveEnumDefaults (some [])) ⟨2024, 1, 1, 0, 0, 0, 0, none⟩ false
      ⟨"varchar(32)".data, false, none, none⟩ ("hosts".data) ("security".data) .vNone
      = .vStr [] := by
  refine ⟨by decide, by decide, by decide, by decide, by decide, by decide, by decide⟩

/-- C4 counterexample: the clear phase iterates
`list(reversed(self.table_order))` (universal.py line 642) with no
exclusion check, so a table that is both excluded and listed in the
configured order is still cleared: with `table_order = [users]` and
`exclude_tables = {users}`, `users` is in the excluded set and also in
the cleared sequence. -/
theorem c4_counterexample :
    ("users".data) ∈ ([ "users".data] : List (List Char)) ∧
    ("users".data) ∈ clearOrder [ "users".data] := by
  refine ⟨by decide, by decide⟩

/-- C4 (amended): a table named in `exclude_tables` appears in neither
the read Table Set (dump parsing and live reading both skip it) nor
the set of tables imported during the import phase; the clear phase,
however, iterates the configured table order without consulting the
exclusion set, so an excluded table listed in the order is still
cleared by the clear phase. -/
theorem c4_exclusion
    (excl createNames insertNames tableNames : List (List Char))
    (hasRows : List Char → Bool)
    (order : List (List Char)) (tables : List Char → Option TableData)
    (tcols : List Char → List (List Char × ColInfo))
    (t : List Char) (ht : t ∈ excl) :
    t ∉ dumpReadNames createNames insertNames excl ∧
    t ∉ liveReadNames tableNames excl hasRows ∧
    t ∉ importOrder order tables excl tcols := by
  have hc : excl.contains t = true := List.elem_eq_true_of_mem ht
  refine ⟨?_, ?_, ?_⟩
  · intro hmem
    rcases List.mem_append.mp hmem with hx | hx <;>
      · have := (List.mem_filter.mp hx).2
        rw [hc] at this
        simp at this
  · intro hmem
    have := (List.mem_filter.mp ((List.mem_filter.mp hmem).1)).2
    rw [hc] at this
    simp at this
  · intro hmem
    have hsi := (List.mem_filter.mp hmem).2
    unfold shouldImport at hsi
    cases htv : tables t with
    | none => rw [htv] at hsi; simp at hsi
    | some td =>
      rw [htv] at hsi
      rw [hc] at hsi
      simp at hsi

/-- C4 witness: a concrete excluded table is absent from the read
set and from the imported set. -/
theorem c4_exclusion_witness :
    ("users".data) ∉ dumpReadNames [ "users".data, "admins".data] [ "users".data]
      [ "users".data] ∧
    ("users".data) ∉ liveReadNames [ "users".data, "admins".data] [ "users".data]
      (fun _ => true) ∧
    ("users".data) ∉ importOrder [ "users".data, "admins".data]
      (fun _ => some ⟨none, [[ .vInt 1]]⟩) [ "users".data]
      (fun _ => [(("id".data), ⟨"int".data, false, none, none⟩)]) := by
  exact c4_exclusion [ "users".data] [ "users".data, "admins".data] [ "users".data]
    [ "users".data, "admins".data] (fun _ => true) [ "users".data, "admins".data]
    (fun _ => some ⟨none, [[ .vInt 1]]⟩)
    (fun _ => [(("id".data), ⟨"int".data, false, none, none⟩)])
    ("users".data) (by decide)

/-- C7: for every auto-increment candidate `(t, c)` whose table
received imported rows, when the maximum existing value `N` of the
column is positive the reconciler issues exactly the statement advancing
the counter to `N + 1` (the `ALTER TABLE ... AUTO_INCREMENT` for MySQL,
or `setval` on the resolved bound sequence for PostgreSQL); when the
table is empty in the target (`MAX` is null, read back as 0) or the
maximum is non-positive, no statement touches the candidate; tables
without imported rows are skipped entirely; and every candidate's
statements appear in the full run's statement list. -/
theorem c7_sequence_reconciliation
    (targetType : List Char) (autoInc : List ((List Char) × List Char))
    (tables : List Char → Option TableData)
    (maxScalar : List Char → List Char → Option Int)
    (seqName : List Char → List Char → Option (List Char))
    (t c : List Char) (td : TableData)
    (ht : tables t = some td) (hrows : td.rows ≠ []) :
    (0 < get_max_id (maxScalar t c) → targetType = "mysql".data →
        candidateActions targetType tables maxScalar seqName (t, c)
          = [ .setAutoInc t (get_max_id (maxScalar t c) + 1)]) ∧
    (0 < get_max_id (maxScalar t c) → targetType = "postgres".data →
        ∀ s, seqName t c = some s → s ≠ [] →
          candidateActions targetType tables maxScalar seqName (t, c)
            = [ .setval s (get_max_id (maxScalar t c) + 1)]) ∧
    (get_max_id (maxScalar t c) ≤ 0 →
        candidateActions targetType tables maxScalar seqName (t, c) = []) ∧
    (∀ t' c', tables t' = none ∨ (∃ td', tables t' = some td' ∧ td'.rows = []) →
        candidateActions targetType tables maxScalar seqName (t', c') = []) ∧
    (∀ p ∈ autoInc, ∀ a ∈ candidateActions targetType tables maxScalar seqName p,
        a ∈ restart_sequences targetType autoInc tables maxScalar seqName) := by
  have hre : td.rows.isEmpty = false := by
    cases hr : td.rows with
    | nil => exact absurd hr hrows
    | cons x xs => simp
  refine ⟨?_, ?_, ?_, ?_, ?_⟩
  · intro hpos htt
    subst htt
    unfold candidateActions
    rw [ht]
    simp only [hre, Bool.false_eq_true, if_false, if_neg (by omega : ¬ get_max_id (maxScalar t c) ≤ 0)]
    simp
  · intro hpos htt s hs hsne
    subst htt
    unfold candidateActions
    rw [ht]
    simp only [hre, Bool.false_eq_true, if_false, if_neg (by omega : ¬ get_max_id (maxScalar t c) ≤ 0)]
    have hse : s.isEmpty = false := by
      cases s with
      | nil => exact absurd rfl hsne
      | cons x xs => simp
    simp [hs, hse]
  · intro hnp
    unfold candidateActions
    rw [ht]
    simp [hre, hnp]
  · intro t' c' hcase
    unfold candidateActions
    rcases hcase with h1 | ⟨td', h2, h3⟩
    · rw [h1]
    · rw [h2]
      simp [h3]
  · intro p hp a ha
    unfold restart_sequences
    exact List.mem_flatMap.mpr ⟨p, hp, ha⟩

/-- C7 witness: a MySQL candidate table with rows and maximum id 42 gets
exactly `AUTO_INCREMENT = 43`; its statement is in the run's list. -/
theorem c7_sequence_reconciliation_witness :
    candidateActions ("mysql".data) (fun _ => some ⟨none, [[ .vInt 1]]⟩)
      (fun _ _ => some 42) (fun _ _ => none) (("users".data), ("id".data))
      = [ .setAutoInc ("users".data) 43] ∧
    (SeqAction.setAutoInc ("users".data) 43) ∈
      restart_sequences ("mysql".data) [(("users".data), ("id".data))]
        (fun _ => some ⟨none, [[ .vInt 1]]⟩) (fun _ _ => some 42) (fun _ _ => none) := by
  have h := c7_sequence_reconciliation ("mysql".data) [(("users".data), ("id".data))]
    (fun _ => some ⟨none, [[ .vInt 1]]⟩) (fun _ _ => some 42) (fun _ _ => none)
    ("users".data) ("id".data) ⟨none, [[ .vInt 1]]⟩ rfl (by decide)
  have h1 := h.1 (by decide) rfl
  refine ⟨h1.trans (by decide), ?_⟩
  apply h.2.2.2.2 (("users".data), ("id".data)) (by decide)
  rw [h1]
  decide

/-- C5: when a non-nullable column's value coerces to null and the
catalog declares no default, `_get_default_value` synthesizes a
type-category default: `false` for a boolean-detected column, 0 for an
integer-detected column, 0.0 for a floating-detected column, the current
timestamp for a datetime-detected column, and for a text-detected column
the configured enum default for that column name when one exists,
otherwise the empty string.  Detection uses the source's substring tests
in branch order.  The last conjunct ties this to the import loop: a
value coercing to null in a non-nullable column is replaced by exactly
this synthesized default. -/
theorem c5_default_synthesis
    (enumDefaults : List (List Char × List Char)) (now : DateTimeV)
    (colInfo : ColInfo) (table column : List Char) (ts : Bool)
    (hd : colInfo.dflt = none) :
    ((isSubL "bool".data (lowerL colInfo.type)
        || isSubL "tinyint(1)".data (lowerL colInfo.type)) = true →
      get_default_value enumDefaults now colInfo table column = .vBool false) ∧
    ((isSubL "bool".data (lowerL colInfo.type)
        || isSubL "tinyint(1)".data (lowerL colInfo.type)) = false →
      anySub [ "int".data, "bigint".data, "smallint".data] (lowerL colInfo.type) = true →
      get_default_value enumDefaults now colInfo table column = .vInt 0) ∧
    ((isSubL "bool".data (lowerL colInfo.type)
        || isSubL "tinyint(1)".data (lowerL colInfo.type)) = false →
      anySub [ "int".data, "bigint".data, "smallint".data] (lowerL colInfo.type) = false →
      anySub [ "float".data, "real".data, "double".data, "numeric".data, "decimal".data]
        (lowerL colInfo.type) = true →
      get_default_value enumDefaults now colInfo table column = .vFloat (.finite 0)) ∧
    ((isSubL "bool".data (lowerL colInfo.type)
        || isSubL "tinyint(1)".data (lowerL colInfo.type)) = false →
      anySub [ "int".data, "bigint".data, "smallint".data] (lowerL colInfo.type) = false →
      anySub [ "float".data, "real".data, "double".data, "numeric".data, "decimal".data]
        (lowerL colInfo.type) = false →
      anySub [ "timestamp".data, "datetime".data, "timestamptz".data]
        (lowerL colInfo.type) = true →
      get_default_value enumDefaults now colInfo table column = .vDatetime now) ∧
    ((isSubL "bool".data (lowerL colInfo.type)
        || isSubL "tinyint(1)".data (lowerL colInfo.type)) = false →
      anySub [ "int".data, "bigint".data, "smallint".data] (lowerL colInfo.type) = false →
      anySub [ "float".data, "real".data, "double".data, "numeric".data, "decimal".data]
        (lowerL colInfo.type) = false →
      anySub [ "timestamp".data, "datetime".data, "timestamptz".data]
        (lowerL colInfo.type) = false →
      anySub [ "text".data, "varchar".data, "char".data, "character".data]
        (lowerL colInfo.type) = true →
      (∀ dv, enumDefaults.lookup column = some dv →
        get_default_value enumDefaults now colInfo table column = .vStr dv) ∧
      (enumDefaults.lookup column = none →
        get_default_value enumDefaults now colInfo table column = .vStr [])) ∧
    (∀ v, colInfo.nullable = false → colInfo.maxLength = none →
      convert_type v colInfo.type = .vNone →
      convertCell enumDefaults now ts colInfo table column v
        = get_default_value enumDefaults now colInfo table column) := by
  refine ⟨?_, ?_, ?_, ?_, ?_, ?_⟩
  · intro h1
    simp [get_default_value, hd, typeDefault, h1]
  · intro h1 h2
    simp [get_default_value, hd, typeDefault, h1, h2]
  · intro h1 h2 h3
    simp [get_default_value, hd, typeDefault, h1, h2, h3]
  · intro h1 h2 h3 h4
    simp [get_default_value, hd, typeDefault, h1, h2, h3, h4]
  · intro h1 h2 h3 h4 h5
    constructor
    · intro dv hdv
      simp [get_default_value, hd, typeDefault, h1, h2, h3, h4, h5, hdv]
    · intro hdv
      simp [get_default_value, hd, typeDefault, h1, h2, h3, h4, h5, hdv]
  · intro v hnul hml hcv
    simp [convertCell, hnul, hcv, hml]

/-- C5 witness: concrete instances of each synthesized category,
including a non-nullable text column named `security` receiving the
configured sentinel rather than the empty string, both directly and
through the import loop's cell conversion. -/
theorem c5_default_synthesis_witness :
    get_default_value default_enum_defaults ⟨2024, 1, 1, 0, 0, 0, 0, none⟩
      ⟨"varchar(32)".data, false, none, none⟩ ("hosts".data) ("security".data)
      = .vStr ("inbound_default".data) ∧
    get_default_value [] ⟨2024, 1, 1, 0, 0, 0, 0, none⟩
      ⟨"boolean".data, false, none, none⟩ ("t".data) ("c".data) = .vBool false ∧
    get_default_value [] ⟨2024, 1, 1, 0, 0, 0, 0, none⟩
      ⟨"bigint".data, false, none, none⟩ ("t".data) ("c".data) = .vInt 0 ∧
    get_default_value [] ⟨2024, 1, 1, 0, 0, 0, 0, none⟩
      ⟨"double".data, false, none, none⟩ ("t".data) ("c".data) = .vFloat (.finite 0) ∧
    get_default_value [] ⟨2024, 1, 1, 0, 0, 0, 0, none⟩
      ⟨"timestamp".data, false, none, none⟩ ("t".data) ("c".data)
      = .vDatetime ⟨2024, 1, 1, 0, 0, 0, 0, none⟩ ∧
    convertCell default_enum_defaults ⟨2024, 1, 1, 0, 0, 0, 0, none⟩ false
      ⟨"varchar(32)".data, false, none, none⟩ ("hosts".data) ("security".data) .vNone
      = .vStr ("inbound_default".data) := by
  have h1 := c5_default_synthesis default_enum_defaults ⟨2024, 1, 1, 0, 0, 0, 0, none⟩
    ⟨"varchar(32)".data, false, none, none⟩ ("hosts".data) ("security".data) false rfl
  have h2 := c5_default_synthesis [] ⟨2024, 1, 1, 0, 0, 0, 0, none⟩
    ⟨"boolean".data, false, none, none⟩ ("t".data) ("c".data) false rfl
  have h3 := c5_default_synthesis [] ⟨2024, 1, 1, 0, 0, 0, 0, none⟩
    ⟨"bigint".data, false, none, none⟩ ("t".data) ("c".data) false rfl
  have h4 := c5_default_synthesis [] ⟨2024, 1, 1, 0, 0, 0, 0, none⟩
    ⟨"double".data, false, none, none⟩ ("t".data) ("c".data) false rfl
  have h5 := c5_default_synthesis [] ⟨2024, 1, 1, 0, 0, 0, 0, none⟩
    ⟨"timestamp".data, false, none, none⟩ ("t".data) ("c".data) false rfl
  have htext := (h1.2.2.2.2.1 (by decide) (by decide) (by decide) (by decide) (by decide)).1
    ("inbound_default".data) (by decide)
  refine ⟨htext, h2.1 (by decide), h3.2.1 (by decide) (by decide),
    h4.2.2.1 (by decide) (by decide) (by decide),
    h5.2.2.2.1 (by decide) (by decide) (by decide) (by decide), ?_⟩
  exact (h1.2.2.2.2.2 .vNone rfl rfl (by decide)).trans htext

/-- C6 counterexample: the boolean category of `_convert_type` is an
exact membership test against `bool`, `boolean`, `tinyint(1)` — not a
substring match: the type name `bools` contains `bool`, yet the value
`"1"` is passed through unchanged instead of being coerced to the
boolean true that membership in {"true","1","t","yes"} would demand. -/
theorem c6_counterexample :
    isSubL "bool".data (lowerL ("bools".data)) = true ∧
    convert_type (.vStr ("1".data)) ("bools".data) = .vStr ("1".data) ∧
    (PyVal.vStr ("1".data)) ≠ .vBool true := by
  refine ⟨by decide, by decide, by decide⟩

/-- C6 (amended): type-category detection in `_convert_type` works on
the lowercase catalog type name; the boolean category is an exact
membership test against {bool, boolean, tinyint(1)} (native bool
passthrough, integer to `val ≠ 0`, otherwise membership of
`str(val).lower()` in {"true","1","t","yes"}); a type name containing
`bigint` or `int8` is parsed as integer with unparsable values yielding
0; any other type name containing `int`, `integer` or `smallint` is
parsed as integer with unparsable values yielding null. -/
theorem c6_type_detection (val : PyVal) (ct0 : List Char) (hv : val ≠ .vNone) :
    ((lowerL ct0 = "bool".data ∨ lowerL ct0 = "boolean".data ∨
        lowerL ct0 = "tinyint(1)".data) →
      (∀ b, val = .vBool b → convert_type val ct0 = .vBool b) ∧
      (∀ n : Int, val = .vInt n → convert_type val ct0 = .vBool (n ≠ 0)) ∧
      (∀ s, val = .vStr s →
        convert_type val ct0
          = .vBool ([ "true".data, "1".data, "t".data, "yes".data].contains (lowerL s)))) ∧
    (¬(lowerL ct0 = "bool".data ∨ lowerL ct0 = "boolean".data ∨
        lowerL ct0 = "tinyint(1)".data) →
      (isSubL "bigint".data (lowerL ct0) || isSubL "int8".data (lowerL ct0)) = true →
      (∀ n, pyIntOf val = some n → convert_type val ct0 = .vInt n) ∧
      (pyIntOf val = none → convert_type val ct0 = .vInt 0)) ∧
    (¬(lowerL ct0 = "bool".data ∨ lowerL ct0 = "boolean".data ∨
        lowerL ct0 = "tinyint(1)".data) →
      (isSubL "bigint".data (lowerL ct0) || isSubL "int8".data (lowerL ct0)) = false →
      anySub [ "int".data, "integer".data, "smallint".data] (lowerL ct0) = true →
      (∀ n, pyIntOf val = some n → convert_type val ct0 = .vInt n) ∧
      (pyIntOf val = none → convert_type val ct0 = .vNone)) := by
  refine ⟨?_, ?_, ?_⟩
  · intro hb
    refine ⟨?_, ?_, ?_⟩
    · intro b hval
      subst hval
      simp [convert_type, hb]
    · intro n hval
      subst hval
      simp [convert_type, hb]
    · intro s hval
      subst hval
      simp [convert_type, hb, pyStr]
  · intro hb hbig
    constructor
    · intro n hn
      simp [convert_type, hv, hb, hbig, hn]
    · intro hn
      simp [convert_type, hv, hb, hbig, hn]
  · intro hb hbig hint
    constructor
    · intro n hn
      simp [convert_type, hv, hb, hbig, hint, hn]
    · intro hn
      simp [convert_type, hv, hb, hbig, hint, hn]

/-- C6 witness: concrete instances — an exact boolean type name coerces
the string `yes` to true; an unparsable value yields 0 in a bigint
column but null in a smallint column. -/
theorem c6_type_detection_witness :
    convert_type (.vStr ("yes".data)) ("BOOLEAN".data) = .vBool true ∧
    convert_type (.vStr ("abc".data)) ("bigint".data) = .vInt 0 ∧
    convert_type (.vStr ("abc".data)) ("smallint".data) = .vNone := by
  have h1 := (c6_type_detection (.vStr ("yes".data)) ("BOOLEAN".data) (by decide)).1
    (by decide)
  have h2 := (c6_type_detection (.vStr ("abc".data)) ("bigint".data) (by decide)).2.1
    (by decide) (by decide)
  have h3 := (c6_type_detection (.vStr ("abc".data)) ("smallint".data) (by decide)).2.2
    (by decide) (by decide) (by decide)
  refine ⟨?_, h2.2 (by decide), h3.2 (by decide)⟩
  exact (h1.2.2 ("yes".data) rfl).trans (by decide)

/-- C1: for any two tables `A` and `B` with `A` strictly before `B` in
the configured (duplicate-free) table order, the clear phase — which
walks the reversed order — clears `B` strictly before `A`, and in
the importing phase every row-import event of `A` occurs strictly
before every row-import event of `B` (tables are imported one at a
time in forward order, each table's rows contiguously). -/
theorem c1_ordering_invariant
    (order : List (List Char)) (tables : List Char → Option TableData)
    (excl : List (List Char)) (tcols : List Char → List (List Char × ColInfo))
    (A B : List Char) (i j : Nat)
    (hnd : order.Nodup)
    (hi : order[i]? = some A) (hj : order[j]? = some B) (hij : i < j) :
    (∀ p q : Nat, (clearOrder order)[p]? = some B → (clearOrder order)[q]? = some A →
      p < q) ∧
    (∀ (p q : Nat) (eA eB : (List Char) × List PyVal),
      (importTrace order tables excl tcols)[p]? = some eA → eA.1 = A →
      (importTrace order tables excl tcols)[q]? = some eB → eB.1 = B →
      p < q) := by
  constructor
  · intro p q hp hq
    unfold clearOrder at hp hq
    exact reverse_pos_lt hnd hi hj hij hp hq
  · intro p q eA eB hp hA hq hB
    have hAmem : A ∈ importOrder order tables excl tcols := by
      rw [← hA]
      exact flatMap_fst_mem (List.getElem?_mem hp)
    have hBmem : B ∈ importOrder order tables excl tcols := by
      rw [← hB]
      exact flatMap_fst_mem (List.getElem?_mem hq)
    obtain ⟨u, v, huv, hu, hv⟩ :=
      filter_rel_order (shouldImport tables excl tcols) order hnd hi hj hij hAmem hBmem
    exact flatMap_block_order (importOrder order tables excl tcols)
      (hnd.filter _) hu hv huv hp hA hq hB

/-- C1 witness: with the order `[admins, users]`, both tables populated,
`users` is cleared before `admins` (positions 0 and 1 of the reversed
order) and `admins`' row is imported before `users`' row (positions 0
and 1 of the import trace). -/
theorem c1_ordering_invariant_witness : (0 : Nat) < 1 ∧ (0 : Nat) < 1 := by
  have h := c1_ordering_invariant [ "admins".data, "users".data]
    (fun _ => some ⟨none, [[ .vInt 1]]⟩) []
    (fun _ => [(("id".data), ⟨"int".data, false, none, none⟩)])
    ("admins".data) ("users".data) 0 1 (by decide) (by decide) (by decide) (by decide)
  refine ⟨h.1 0 1 (by decide) (by decide), ?_⟩
  exact h.2 0 1 (("admins".data), [ .vInt 1]) (("users".data), [ .vInt 1])
    (by decide) (by decide) (by decide) (by decide)

lemma toBatchesAux_nil (n fuel : Nat) : toBatchesAux n fuel [] = [] := by
  cases fuel <;> rfl

lemma countP_not_eq {α : Type} (p : α → Bool) (l : List α) :
    l.countP (fun a => !(p a)) = l.length - l.countP p := by
  have h := List.length_eq_countP_add_countP p l
  have he : l.countP (fun a => decide ¬(p a = true)) = l.countP (fun a => !(p a)) := by
    apply List.countP_congr
    intro a _
    cases p a <;> simp
  omega

/-- C2: for a table whose rows form exactly one batch in which exactly
one row is rejected by the target (and every other row is accepted when
retried individually), the import's final counters for that table are
`batch_size - 1` successes and 1 failure — the batch transaction is
rolled back and each row retried in its own transaction (`processBatch`)
— and the per-table statistics of every other table are unaffected by
that table's data. -/
theorem c2_partial_failure_isolation
    (rowOk : List PyVal → Bool) (bs : Nat) (rows : List (List PyVal))
    (hlen : rows.length = bs)
    (hone : rows.countP (fun r => !(rowOk r)) = 1) :
    importCounts rowOk bs rows = (bs - 1, 1) ∧
    (∀ (order : List (List Char)) (tablesA tablesB : List Char → Option TableData)
       (excl : List (List Char)) (tcols : List Char → List (List Char × ColInfo))
       (rowOkT : List Char → List PyVal → Bool) (bsz : Nat) (t t' : List Char),
       t' ≠ t → (∀ u, u ≠ t → tablesB u = tablesA u) →
       (runStats order tablesB excl tcols rowOkT bsz).lookup t'
         = (runStats order tablesA excl tcols rowOkT bsz).lookup t') := by
  constructor
  · cases bs with
    | zero =>
      have h0 : rows = [] := List.length_eq_zero.mp hlen
      subst h0
      simp at hone
    | succ fuel =>
      cases rows with
      | nil => simp at hlen
      | cons r rest =>
        have hb : toBatches (fuel + 1) (r :: rest) = [r :: rest] := by
          unfold toBatches
          rw [hlen]
          unfold toBatchesAux
          rw [List.take_of_length_le (le_of_eq hlen), List.drop_eq_nil_of_le (le_of_eq hlen),
            toBatchesAux_nil]
        have hfail_pos : ¬ ((r :: rest).all rowOk = true) := by
          intro hall
          have hz : (r :: rest).countP (fun x => !(rowOk x)) = 0 := by
            rw [List.countP_eq_zero]
            intro a ha
            simp [List.all_eq_true.mp hall a ha]
          rw [hone] at hz
          omega
        have hco : (r :: rest).countP rowOk = fuel := by
          have ht := countP_not_eq rowOk (r :: rest)
          have hle := List.countP_le_length rowOk (l := r :: rest)
          rw [hone] at ht
          omega
        unfold importCounts
        rw [hb]
        simp only [List.foldl_cons, List.foldl_nil]
        unfold processBatch
        rw [if_neg hfail_pos]
        simp only [Nat.zero_add]
        rw [hco, hone]
        simp
  · intro order tablesA tablesB excl tcols rowOkT bsz t t' hne h
    have harg : tablesB t' = tablesA t' := h t' hne
    have hsi : shouldImport tablesB excl tcols t' = shouldImport tablesA excl tcols t' := by
      unfold shouldImport
      rw [harg]
    have hiff : t' ∈ importOrder order tablesB excl tcols
        ↔ t' ∈ importOrder order tablesA excl tcols := by
      unfold importOrder
      simp only [List.mem_filter, hsi]
    unfold runStats
    rw [lookup_map_key, lookup_map_key]
    by_cases hin : t' ∈ importOrder order tablesA excl tcols
    · rw [if_pos (hiff.mpr hin), if_pos hin, harg]
    · rw [if_neg (fun hx => hin (hiff.mp hx)), if_neg hin]

/-- C2 witness: a three-row batch (batch size 3) whose middle row is
rejected ends with counts (2, 1). -/
theorem c2_partial_failure_isolation_witness :
    importCounts (fun r => !(r = [ PyVal.vInt 2])) 3
      [[ PyVal.vInt 1], [ PyVal.vInt 2], [ PyVal.vInt 3]] = (2, 1) := by
  exact (c2_partial_failure_isolation (fun r => !(r = [ PyVal.vInt 2])) 3
    [[ PyVal.vInt 1], [ PyVal.vInt 2], [ PyVal.vInt 3]] (by decide) (by decide)).1

end Universal
